import Mathlib

/-!
Shallow embedding of `src/chunk_type/mod.rs` from the rs-conc repository:
the PNG chunk-type value type `ChunkType` with its two constructors
(`try_from` on a 4-byte array, `from_str` on a string), the `bytes`
accessor, the four bit-5 classification predicates, `is_valid`, and the
`ToString` implementation.

Modelling conventions:
- a Rust `[u8; 4]` is the structure `B4` of four `Nat` fields;
- a Rust string is represented by its raw UTF-8 byte sequence `List Nat`
  (`str::as_bytes`);
- a Rust function that can panic returns `Option`: `none` models a panic,
  `some r` a normal return of `r` (which may itself be an `Except` when the
  Rust function returns a `Result`).
-/

namespace RsConc

/-- A Rust `[u8; 4]`: exactly four byte values. -/
structure B4 where
  b0 : Nat
  b1 : Nat
  b2 : Nat
  b3 : Nat
deriving DecidableEq, Repr

/-- The bytes of a `B4` in order, as produced by iterating the array. -/
def B4.toList (a : B4) : List Nat := [a.b0, a.b1, a.b2, a.b3]

/-- The rejection test inside the loop of `ChunkType::try_from`:
`byte_val < 65 || (byte_val > 90 && byte_val < 97) || byte_val > 122`. -/
def badAscii (b : Nat) : Bool :=
  decide (b < 65) || (decide (b > 90) && decide (b < 97)) || decide (b > 122)

/-- The error message returned by `ChunkType::try_from` on a bad byte. -/
def asciiErrMsg : String :=
  "Chunk type encoding must be in ascii lowercase/upper case (65-90/97-122)"

/-- The Rust struct `ChunkType { _container: [u8; 4] }` (field renamed
`container` since Lean reserves leading-underscore names for holes). -/
structure ChunkType where
  container : B4
deriving DecidableEq, Repr

/-- `ChunkType::try_from(arr: [u8; 4]) -> Result<ChunkType, String>`:
loops over the bytes, returns `Err` at the first byte failing the ASCII
letter test, else wraps the array. `List.any` models the early-returning
loop (one fixed error message, so the exit point does not matter). -/
def ChunkType.try_from (arr : B4) : Except String ChunkType :=
  if arr.toList.any badAscii then Except.error asciiErrMsg
  else Except.ok ⟨arr⟩

/-- `convert_slice_to_fixed(arr: &[u8]) -> [u8; 4]`: `try_into` followed by
`.expect(...)`, which panics (`none`) when the slice length is not 4. -/
def convert_slice_to_fixed (arr : List Nat) : Option B4 :=
  match arr with
  | [a, b, c, d] => some ⟨a, b, c, d⟩
  | _ => none

/-- `ChunkType::from_str(input_str: &str) -> Result<ChunkType, String>`:
converts the string bytes through `convert_slice_to_fixed` (panicking on a
length other than 4) and delegates to `try_from`, propagating its result. -/
def ChunkType.from_str (s : List Nat) : Option (Except String ChunkType) :=
  (convert_slice_to_fixed s).map ChunkType.try_from

/-- `ChunkType::bytes(&self) -> [u8; 4]`: returns the container. -/
def ChunkType.bytes (c : ChunkType) : B4 := c.container

/-- `is_critical`: bit 5 of byte 0 is clear. -/
def ChunkType.is_critical (c : ChunkType) : Bool :=
  (c.container.b0 &&& (1 <<< 5)) == 0

/-- `is_public`: bit 5 of byte 1 is clear. -/
def ChunkType.is_public (c : ChunkType) : Bool :=
  (c.container.b1 &&& (1 <<< 5)) == 0

/-- `is_reserved_bit_valid`: bit 5 of byte 2 is clear. -/
def ChunkType.is_reserved_bit_valid (c : ChunkType) : Bool :=
  (c.container.b2 &&& (1 <<< 5)) == 0

/-- `is_safe_to_copy`: bit 5 of byte 3 is set. -/
def ChunkType.is_safe_to_copy (c : ChunkType) : Bool :=
  (c.container.b3 &&& (1 <<< 5)) != 0

/-- `is_valid`: defined as exactly `is_reserved_bit_valid`. -/
def ChunkType.is_valid (c : ChunkType) : Bool :=
  c.is_reserved_bit_valid

/-- Byte `i` of `l` exists and lies in `[lo, hi]`. -/
def byteInRange (l : List Nat) (i lo hi : Nat) : Bool :=
  match l.get? i with
  | some c => decide (lo ≤ c) && decide (c ≤ hi)
  | none => false

/-- Validity of a byte sequence as UTF-8, as checked by
`String::from_utf8` (Rust `core::str::from_utf8` table, rejecting overlong
encodings and surrogates). The second byte of a multi-byte sequence has a
lead-dependent range; further bytes are plain continuations `80-BF`. -/
def utf8Valid (l : List Nat) : Bool :=
  match l with
  | [] => true
  | b :: rest =>
    if b ≤ 0x7F then utf8Valid rest
    else if 0xC2 ≤ b ∧ b ≤ 0xDF then
      byteInRange rest 0 0x80 0xBF && utf8Valid (rest.drop 1)
    else if b = 0xE0 then
      byteInRange rest 0 0xA0 0xBF && byteInRange rest 1 0x80 0xBF &&
        utf8Valid (rest.drop 2)
    else if (0xE1 ≤ b ∧ b ≤ 0xEC) ∨ b = 0xEE ∨ b = 0xEF then
      byteInRange rest 0 0x80 0xBF && byteInRange rest 1 0x80 0xBF &&
        utf8Valid (rest.drop 2)
    else if b = 0xED then
      byteInRange rest 0 0x80 0x9F && byteInRange rest 1 0x80 0xBF &&
        utf8Valid (rest.drop 2)
    else if b = 0xF0 then
      byteInRange rest 0 0x90 0xBF && byteInRange rest 1 0x80 0xBF &&
        byteInRange rest 2 0x80 0xBF && utf8Valid (rest.drop 3)
    else if 0xF1 ≤ b ∧ b ≤ 0xF3 then
      byteInRange rest 0 0x80 0xBF && byteInRange rest 1 0x80 0xBF &&
        byteInRange rest 2 0x80 0xBF && utf8Valid (rest.drop 3)
    else if b = 0xF4 then
      byteInRange rest 0 0x80 0x8F && byteInRange rest 1 0x80 0xBF &&
        byteInRange rest 2 0x80 0xBF && utf8Valid (rest.drop 3)
    else false
termination_by l.length
decreasing_by
  all_goals (simp only [List.length_drop, List.length_cons]; omega)

/-- `ToString for ChunkType`: `String::from_utf8(self._container.to_vec())`,
returning the decoded string on success and panicking (`none`) on invalid
UTF-8. The string is represented by its bytes, which `from_utf8` preserves. -/
def ChunkType.to_string (c : ChunkType) : Option (List Nat) :=
  if utf8Valid c.container.toList then some c.container.toList else none

/-- The derived `PartialEq` on `[u8; 4]`: byte-wise equality. -/
def beqB4 (x y : B4) : Bool :=
  x.b0 == y.b0 && x.b1 == y.b1 && x.b2 == y.b2 && x.b3 == y.b3

/-- The derived `PartialEq` on `ChunkType`: compares the container field. -/
def ChunkType.peq (a b : ChunkType) : Bool :=
  beqB4 a.container b.container

/-- The spec-side invariant: a byte is an ASCII letter,
in the range 65-90 or 97-122. -/
def isAsciiLetter (b : Nat) : Prop :=
  (65 ≤ b ∧ b ≤ 90) ∨ (97 ≤ b ∧ b ≤ 122)

instance (b : Nat) : Decidable (isAsciiLetter b) := by
  unfold isAsciiLetter; exact inferInstance

/-! ## Helper lemmas -/

theorem badAscii_false_iff (b : Nat) : badAscii b = false ↔ isAsciiLetter b := by
  simp [badAscii, isAsciiLetter]
  omega

theorem try_from_ok_iff (arr : B4) :
    ChunkType.try_from arr = Except.ok ⟨arr⟩ ↔ ∀ b ∈ arr.toList, isAsciiLetter b := by
  unfold ChunkType.try_from
  by_cases h : arr.toList.any badAscii = true
  · rw [if_pos h]
    constructor
    · intro hcon; exact absurd hcon (by simp)
    · intro hall
      rcases List.any_eq_true.mp h with ⟨b, hb, hbad⟩
      exact absurd ((badAscii_false_iff b).mpr (hall b hb))
        (by simp [hbad])
  · rw [if_neg h]
    have h' : arr.toList.any badAscii = false := by simpa using h
    constructor
    · intro _ b hb
      exact (badAscii_false_iff b).mp (Bool.eq_false_iff.mpr (List.any_eq_false.mp h' b hb))
    · intro _; rfl

theorem try_from_err_iff (arr : B4) :
    ChunkType.try_from arr = Except.error asciiErrMsg ↔
      ¬ ∀ b ∈ arr.toList, isAsciiLetter b := by
  unfold ChunkType.try_from
  by_cases h : arr.toList.any badAscii = true
  · rw [if_pos h]
    constructor
    · intro _ hall
      rcases List.any_eq_true.mp h with ⟨b, hb, hbad⟩
      exact absurd ((badAscii_false_iff b).mpr (hall b hb)) (by simp [hbad])
    · intro _; rfl
  · rw [if_neg h]
    have h' : arr.toList.any badAscii = false := by simpa using h
    constructor
    · intro hcon; exact absurd hcon (by simp)
    · intro hnall
      exact absurd (fun b hb => (badAscii_false_iff b).mp (Bool.eq_false_iff.mpr (List.any_eq_false.mp h' b hb)))
        hnall

theorem try_from_ok_shape (arr : B4) (c : ChunkType)
    (h : ChunkType.try_from arr = Except.ok c) : c = ⟨arr⟩ := by
  unfold ChunkType.try_from at h
  by_cases hb : arr.toList.any badAscii = true
  · simp [hb] at h
  · simp [hb] at h
    exact h.symm

theorem try_from_ok_letters (arr : B4) (c : ChunkType)
    (h : ChunkType.try_from arr = Except.ok c) :
    ∀ b ∈ c.bytes.toList, isAsciiLetter b := by
  have hc : c = ⟨arr⟩ := try_from_ok_shape arr c h
  subst hc
  have := (try_from_ok_iff arr).mp (by exact h)
  simpa [ChunkType.bytes] using this

theorem land32_eq_zero_iff (b : Nat) : b &&& 32 = 0 ↔ Nat.testBit b 5 = false := by
  have h32 : (32 : Nat) = 2 ^ 5 := by norm_num
  rw [h32, Nat.and_two_pow]
  cases hb : Nat.testBit b 5 <;> simp

theorem land32_beq_iff (x : Nat) :
    ((x &&& (1 <<< 5)) == 0) = true ↔ Nat.testBit x 5 = false := by
  rw [show (1 <<< 5 : Nat) = 32 from rfl]
  simp only [beq_iff_eq]
  exact land32_eq_zero_iff x

theorem land32_bne_iff (x : Nat) :
    ((x &&& (1 <<< 5)) != 0) = true ↔ Nat.testBit x 5 = true := by
  rw [show (1 <<< 5 : Nat) = 32 from rfl]
  simp only [bne_iff_ne, ne_eq]
  constructor
  · intro h
    cases ht : Nat.testBit x 5
    · exact absurd ((land32_eq_zero_iff x).mpr ht) h
    · rfl
  · intro h hz
    simp [(land32_eq_zero_iff x).mp hz] at h

theorem beqB4_iff (x y : B4) : beqB4 x y = true ↔ x = y := by
  cases x; cases y
  simp only [beqB4, Bool.and_eq_true, beq_iff_eq, B4.mk.injEq]
  tauto

theorem beqB4_comm (x y : B4) : beqB4 x y = beqB4 y x := by
  cases hxy : beqB4 x y <;> cases hyx : beqB4 y x <;> try rfl
  · exact absurd ((beqB4_iff x y).mpr ((beqB4_iff y x).mp hyx).symm) (by simp [hxy])
  · exact absurd ((beqB4_iff y x).mpr ((beqB4_iff x y).mp hxy).symm) (by simp [hyx])

theorem convert_none (s : List Nat) (h : s.length ≠ 4) :
    convert_slice_to_fixed s = none := by
  rcases s with _ | ⟨a, _ | ⟨b, _ | ⟨c, _ | ⟨d, _ | ⟨e, t⟩⟩⟩⟩⟩
  · rfl
  · rfl
  · rfl
  · rfl
  · exact absurd rfl h
  · rfl

theorem length_four_exists (s : List Nat) (h : s.length = 4) :
    ∃ a b c d, s = [a, b, c, d] := by
  rcases s with _ | ⟨a, _ | ⟨b, _ | ⟨c, _ | ⟨d, _ | ⟨e, t⟩⟩⟩⟩⟩
  · simp at h
  · simp at h
  · simp at h
  · simp at h
  · exact ⟨a, b, c, d, rfl⟩
  · simp only [List.length_cons] at h
    omega

theorem letter_ascii (b : Nat) (h : isAsciiLetter b) : b ≤ 0x7F := by
  unfold isAsciiLetter at h
  omega

theorem utf8Valid_nil : utf8Valid [] = true := by
  rw [utf8Valid.eq_def]

theorem utf8Valid_cons_ascii (b : Nat) (rest : List Nat) (hb : b ≤ 0x7F) :
    utf8Valid (b :: rest) = utf8Valid rest := by
  conv_lhs => rw [utf8Valid.eq_def]
  simp only []
  rw [if_pos hb]

theorem utf8Valid_four_ascii (a b c d : Nat)
    (ha : a ≤ 0x7F) (hb : b ≤ 0x7F) (hc : c ≤ 0x7F) (hd : d ≤ 0x7F) :
    utf8Valid [a, b, c, d] = true := by
  rw [utf8Valid_cons_ascii a _ ha, utf8Valid_cons_ascii b _ hb,
    utf8Valid_cons_ascii c _ hc, utf8Valid_cons_ascii d _ hd]
  exact utf8Valid_nil

theorem to_string_of_valid (arr : B4) (c : ChunkType)
    (h : ChunkType.try_from arr = Except.ok c) :
    c.to_string = some c.bytes.toList := by
  have hl := try_from_ok_letters arr c h
  obtain ⟨⟨a, b, e, d⟩⟩ := c
  have h0 := letter_ascii a (hl a (by simp [ChunkType.bytes, B4.toList]))
  have h1 := letter_ascii b (hl b (by simp [ChunkType.bytes, B4.toList]))
  have h2 := letter_ascii e (hl e (by simp [ChunkType.bytes, B4.toList]))
  have h3 := letter_ascii d (hl d (by simp [ChunkType.bytes, B4.toList]))
  show (if utf8Valid [a, b, e, d] = true then some [a, b, e, d] else none) =
    some [a, b, e, d]
  rw [if_pos (utf8Valid_four_ascii a b e d h0 h1 h2 h3)]

/-! ## Claim theorems -/

/-- C1: for every 4-byte array `arr`, `ChunkType::try_from arr` succeeds
(with the array stored verbatim, so `bytes()` returns exactly `arr`) iff
every byte of `arr` is in 65-90 or 97-122; otherwise it fails with the
encoding error message, producing no instance. -/
theorem c1_from_bytes_correct (arr : B4) :
    (ChunkType.try_from arr = Except.ok ⟨arr⟩ ↔ ∀ b ∈ arr.toList, isAsciiLetter b) ∧
    (ChunkType.try_from arr = Except.error asciiErrMsg ↔
      ¬ ∀ b ∈ arr.toList, isAsciiLetter b) ∧
    (∀ c : ChunkType, ChunkType.try_from arr = Except.ok c → c.bytes = arr) :=
  ⟨try_from_ok_iff arr, try_from_err_iff arr,
    fun c h => by rw [try_from_ok_shape arr c h]; rfl⟩

/-- Witness for C1 at the byte array of `"RuSt"`. -/
theorem c1_from_bytes_correct_witness :
    ChunkType.try_from ⟨82, 117, 83, 116⟩ = Except.ok ⟨⟨82, 117, 83, 116⟩⟩ ∧
    (ChunkType.mk ⟨82, 117, 83, 116⟩).bytes = ⟨82, 117, 83, 116⟩ := by
  refine ⟨(c1_from_bytes_correct ⟨82, 117, 83, 116⟩).1.mpr (by decide), ?_⟩
  exact (c1_from_bytes_correct ⟨82, 117, 83, 116⟩).2.2 ⟨⟨82, 117, 83, 116⟩⟩
    ((c1_from_bytes_correct ⟨82, 117, 83, 116⟩).1.mpr (by decide))

/-- C3: for every instance, `is_critical` holds iff bit 5 of byte 0 is
clear, `is_public` iff bit 5 of byte 1 is clear, `is_reserved_bit_valid`
iff bit 5 of byte 2 is clear, and `is_safe_to_copy` iff bit 5 of byte 3 is
set (inverted polarity). -/
theorem c3_bit_predicates (c : ChunkType) :
    (c.is_critical = true ↔ Nat.testBit c.bytes.b0 5 = false) ∧
    (c.is_public = true ↔ Nat.testBit c.bytes.b1 5 = false) ∧
    (c.is_reserved_bit_valid = true ↔ Nat.testBit c.bytes.b2 5 = false) ∧
    (c.is_safe_to_copy = true ↔ Nat.testBit c.bytes.b3 5 = true) :=
  ⟨land32_beq_iff c.container.b0, land32_beq_iff c.container.b1,
    land32_beq_iff c.container.b2, land32_bne_iff c.container.b3⟩

/-- C8: `is_valid` returns exactly the same boolean as
`is_reserved_bit_valid` on every instance. -/
theorem c8_is_valid_narrow (c : ChunkType) :
    c.is_valid = c.is_reserved_bit_valid := rfl

/-- C2 counterexample: on the 3-byte string `"abc"`, `from_str` panics
(`convert_slice_to_fixed` aborts through `expect`, modelled `none`); it
does not return a recoverable length error (which would be
`some (Except.error e)`). -/
theorem c2_from_str_short_panics : ChunkType.from_str [97, 98, 99] = none := rfl

/-- C2 amended: when the raw byte length of the input differs from 4,
`from_str` panics rather than returning a recoverable length error; when
the length is exactly 4 it delegates to `try_from` on those bytes and
propagates its result or error unchanged. -/
theorem c2_from_str_amended (s : List Nat) :
    (s.length ≠ 4 → ChunkType.from_str s = none) ∧
    (s.length = 4 → ∃ arr : B4, arr.toList = s ∧
      convert_slice_to_fixed s = some arr ∧
      ChunkType.from_str s = some (ChunkType.try_from arr)) := by
  constructor
  · intro h
    rw [ChunkType.from_str, convert_none s h]
    rfl
  · intro h
    obtain ⟨a, b, c, d, rfl⟩ := length_four_exists s h
    exact ⟨⟨a, b, c, d⟩, rfl, rfl, rfl⟩

/-- Witness for C2 amended on the 3-byte string `"abc"` (panic) and the
4-byte string `"RuSt"` (delegation to `try_from`). -/
theorem c2_from_str_amended_witness :
    ChunkType.from_str [97, 98, 99] = none ∧
    ChunkType.from_str [82, 117, 83, 116] =
      some (ChunkType.try_from ⟨82, 117, 83, 116⟩) := by
  constructor
  · exact (c2_from_str_amended [97, 98, 99]).1 (by decide)
  · obtain ⟨arr, ha, hc, hf⟩ := (c2_from_str_amended [82, 117, 83, 116]).2 rfl
    have harr : arr = ⟨82, 117, 83, 116⟩ :=
      Option.some.inj ((hc.symm).trans rfl)
    rw [harr] at hf
    exact hf

/-- C4: for every validly constructed instance, the `ToString`
implementation cannot hit its panic branch, and the rendered text is the
4-byte tag itself read as a 4-character ASCII string. -/
theorem c4_to_string_infallible (arr : B4) (c : ChunkType)
    (h : ChunkType.try_from arr = Except.ok c) :
    c.to_string = some c.bytes.toList :=
  to_string_of_valid arr c h

/-- Witness for C4 at the tag `"RuSt"`. -/
theorem c4_to_string_infallible_witness :
    (ChunkType.mk ⟨82, 117, 83, 116⟩).to_string = some [82, 117, 83, 116] :=
  c4_to_string_infallible ⟨82, 117, 83, 116⟩ (ChunkType.mk ⟨82, 117, 83, 116⟩) rfl

/-- C5: the ASCII-letter invariant holds for every instance either public
constructor can produce: a successful `try_from` or `from_str` only yields
instances whose 4 bytes are all ASCII letters (no other way to build an
instance exists in the module's public surface, and `bytes` does not
mutate). -/
theorem c5_invariant :
    (∀ (arr : B4) (c : ChunkType), ChunkType.try_from arr = Except.ok c →
      ∀ b ∈ c.bytes.toList, isAsciiLetter b) ∧
    (∀ (s : List Nat) (c : ChunkType),
      ChunkType.from_str s = some (Except.ok c) →
      ∀ b ∈ c.bytes.toList, isAsciiLetter b) := by
  refine ⟨try_from_ok_letters, fun s c h b hb => ?_⟩
  unfold ChunkType.from_str at h
  cases hcv : convert_slice_to_fixed s with
  | none => rw [hcv] at h; simp at h
  | some arr =>
    rw [hcv] at h
    simp at h
    exact try_from_ok_letters arr c h b hb

/-- Witness for C5: the first byte of the instance built from `"abcd"`. -/
theorem c5_invariant_witness : isAsciiLetter 97 :=
  c5_invariant.1 ⟨97, 98, 99, 100⟩ (ChunkType.mk ⟨97, 98, 99, 100⟩) rfl 97 (by decide)

/-- C6: round-trip — rendering a validly constructed instance to text
succeeds and parsing that text back through `from_str` succeeds and yields
an equal instance. -/
theorem c6_round_trip (arr : B4) (c : ChunkType)
    (h : ChunkType.try_from arr = Except.ok c) :
    ∃ t, c.to_string = some t ∧ ChunkType.from_str t = some (Except.ok c) := by
  have hc : c = ⟨arr⟩ := try_from_ok_shape arr c h
  subst hc
  obtain ⟨a, b, e, d⟩ := arr
  refine ⟨[a, b, e, d], to_string_of_valid ⟨a, b, e, d⟩ ⟨⟨a, b, e, d⟩⟩ h, ?_⟩
  have hs : ChunkType.from_str [a, b, e, d] =
      some (ChunkType.try_from ⟨a, b, e, d⟩) := rfl
  rw [hs, h]

/-- Witness for C6 at the tag `"AbCz"`. -/
theorem c6_round_trip_witness :
    (ChunkType.mk ⟨65, 98, 67, 122⟩).to_string = some [65, 98, 67, 122] ∧
    ChunkType.from_str [65, 98, 67, 122] =
      some (Except.ok (ChunkType.mk ⟨65, 98, 67, 122⟩)) := by
  obtain ⟨t, h1, h2⟩ :=
    c6_round_trip ⟨65, 98, 67, 122⟩ (ChunkType.mk ⟨65, 98, 67, 122⟩) rfl
  have hcalc : (ChunkType.mk ⟨65, 98, 67, 122⟩).to_string =
      some [65, 98, 67, 122] :=
    to_string_of_valid ⟨65, 98, 67, 122⟩ (ChunkType.mk ⟨65, 98, 67, 122⟩) rfl
  have ht : t = [65, 98, 67, 122] := Option.some.inj (h1.symm.trans hcalc)
  rw [ht] at h2
  exact ⟨hcalc, h2⟩

/-- C7: on any 4-byte all-ASCII-letter string, `from_str` succeeds and
produces the same instance (hence the same `bytes()`) as `try_from`
applied to the raw bytes of the string. -/
theorem c7_constructors_agree (s : List Nat) (h4 : s.length = 4)
    (hl : ∀ b ∈ s, isAsciiLetter b) :
    ∃ arr : B4, arr.toList = s ∧
      ChunkType.from_str s = some (Except.ok (ChunkType.mk arr)) ∧
      ChunkType.try_from arr = Except.ok (ChunkType.mk arr) ∧
      (ChunkType.mk arr).bytes = arr := by
  obtain ⟨a, b, c, d, rfl⟩ := length_four_exists s h4
  have hok : ChunkType.try_from ⟨a, b, c, d⟩ =
      Except.ok (ChunkType.mk ⟨a, b, c, d⟩) :=
    (try_from_ok_iff ⟨a, b, c, d⟩).mpr
      (fun x hx => hl x (by simpa [B4.toList] using hx))
  refine ⟨⟨a, b, c, d⟩, rfl, ?_, hok, rfl⟩
  have hs : ChunkType.from_str [a, b, c, d] =
      some (ChunkType.try_from ⟨a, b, c, d⟩) := rfl
  rw [hs, hok]

/-- Witness for C7 at the string `"ruST"`. -/
theorem c7_constructors_agree_witness :
    ChunkType.from_str [114, 117, 83, 84] =
      some (Except.ok (ChunkType.mk ⟨114, 117, 83, 84⟩)) := by
  obtain ⟨arr, ha, hf, ht, hb⟩ :=
    c7_constructors_agree [114, 117, 83, 84] rfl (by decide)
  have harr : arr = ⟨114, 117, 83, 84⟩ := by
    obtain ⟨x0, x1, x2, x3⟩ := arr
    simp only [B4.toList, List.cons.injEq, and_true] at ha
    obtain ⟨h0, h1, h2, h3⟩ := ha
    subst h0; subst h1; subst h2; subst h3
    rfl
  rw [harr] at hf
  exact hf

/-- C10: a 4-byte string containing a byte 128 or above (as every byte of
a multi-byte UTF-8 character is) makes `from_str` return the encoding
error: not a length error and not a panic. -/
theorem c10_from_str_nonascii (s : List Nat) (h4 : s.length = 4)
    (hb : ∃ b ∈ s, 128 ≤ b) :
    ChunkType.from_str s = some (Except.error asciiErrMsg) := by
  obtain ⟨a, b, c, d, rfl⟩ := length_four_exists s h4
  have hs : ChunkType.from_str [a, b, c, d] =
      some (ChunkType.try_from ⟨a, b, c, d⟩) := rfl
  rw [hs]
  congr 1
  apply (try_from_err_iff ⟨a, b, c, d⟩).mpr
  intro hall
  obtain ⟨x, hx, hxge⟩ := hb
  have hlet := hall x (by simpa [B4.toList] using hx)
  unfold isAsciiLetter at hlet
  omega

/-- Witness for C10 at the UTF-8 bytes of the 2-character string
`"éé"` (each character encodes as two bytes at 128 or above). -/
theorem c10_from_str_nonascii_witness :
    ChunkType.from_str [195, 169, 195, 169] = some (Except.error asciiErrMsg) :=
  c10_from_str_nonascii [195, 169, 195, 169] rfl ⟨195, by decide, by decide⟩

/-- C9: the derived equality (`peq`) is reflexive and symmetric, and two
instances are equal under it exactly when their 4 bytes are identical in
order. -/
theorem c9_equality_spec :
    (∀ a : ChunkType, a.peq a = true) ∧
    (∀ a b : ChunkType, a.peq b = b.peq a) ∧
    (∀ a b : ChunkType, a.peq b = true ↔ a.bytes = b.bytes) := by
  refine ⟨fun a => (beqB4_iff _ _).mpr rfl,
    fun a b => beqB4_comm a.container b.container, fun a b => ?_⟩
  rw [ChunkType.peq, beqB4_iff]
  exact Iff.rfl

end RsConc
